import Mathlib

/-!
Verification of the Wi-Fi CSI motion-detection terminal renderer
(`matrix.py`).  The Python source is shallowly embedded below: floats are
modelled as exact reals, Python `int()` truncation and `round()` banker's
rounding as explicit functions on `ℝ`, Python lists as Lean `List`s, and
the process-global `random.Random` source as an adversarial pair of value
streams threaded through the computation exactly where the source draws
from it.
-/

namespace MatrixPy

open Real

/-! ## Tunables (matrix.py lines 13-47) -/

def TARGET_FPS : ℝ := 20.0

def RSSI_NEAR : ℝ := -30.0
def RSSI_FAR : ℝ := -90.0

def BASE_SAMPLES : ℤ := 24
def SAMPLES_PER_MOTION : ℝ := 10
def SAMPLES_PER_DRSSI : ℝ := 30
def MAX_SAMPLES_PER : ℤ := 600
def JITTER_ARC_DEG : ℝ := 22.0
def JITTER_R_FRAC : ℝ := 0.10
def RAY_STEPS_PER_M : ℝ := 9.0

def FAST_DECAY_PER_SEC : ℝ := 0.88
def SLOW_DECAY_PER_SEC : ℝ := 0.995
def SLOW_GAIN : ℝ := 0.25

def CHAR_FG_RAMP : List ℕ := [240, 71, 184, 208, 196]

def HISTO_EQ_FRACTION : ℝ := 0.95

def EMA_RSSI_ALPHA : ℝ := 0.35
def EMA_MOTION_ALPHA : ℝ := 0.4
def DRSSI_CLAMP : ℝ := 8.0

/-! ## Python primitives -/

/-- Python `int(x)` applied to a float: truncation toward zero. -/
noncomputable def pyTrunc (x : ℝ) : ℤ :=
  if 0 ≤ x then ⌊x⌋ else -⌊-x⌋

/-- Python 3 `round(x)` (round half to even), composed with `int(..)`
the result is the same integer. -/
noncomputable def pyRound (x : ℝ) : ℤ :=
  if x - ⌊x⌋ = 1/2 then (if Even ⌊x⌋ then ⌊x⌋ else ⌊x⌋ + 1) else round x

/-- `clamp` from matrix.py line 87: `lo if a<lo else (hi if a>hi else a)`. -/
def clamp {α : Type} [LinearOrder α] (a lo hi : α) : α :=
  if a < lo then lo else if a > hi then hi else a

/-! ## Random source

`random.Random` is modelled as two adversarial streams of draws with
cursors.  `randint lo hi` and `uniform a b` each return a value inside the
requested interval determined by the next stream entry, and advance the
corresponding cursor — every draw the Python process can make corresponds
to some choice of streams. -/

structure RNG where
  ints : ℕ → ℤ
  reals : ℕ → ℝ
  ni : ℕ
  nr : ℕ

/-- `rng.randint(lo, hi)`: a stream-determined value in `[lo, hi]`. -/
def RNG.randint (g : RNG) (lo hi : ℤ) : ℤ × RNG :=
  (clamp (g.ints g.ni) lo hi, { g with ni := g.ni + 1 })

/-- `rng.uniform(a, b)`: a stream-determined value in `[a, b]`. -/
noncomputable def RNG.uniform (g : RNG) (a b : ℝ) : ℝ × RNG :=
  (a + (b - a) * clamp (g.reals g.nr) 0 1, { g with nr := g.nr + 1 })

/-! ## Projection (matrix.py lines 65-87) -/

/-- `rssi_to_radius_pix` (lines 70-74): clamp the RSSI to
`[RSSI_FAR, RSSI_NEAR]`, interpolate linearly, invert so stronger signal
maps closer to the center. -/
noncomputable def rssi_to_radius_pix (rssi Rsub : ℝ) : ℝ :=
  let r1 := if rssi > RSSI_NEAR then RSSI_NEAR else rssi
  let r2 := if r1 < RSSI_FAR then RSSI_FAR else r1
  let t := (RSSI_NEAR - r2) / (RSSI_NEAR - RSSI_FAR)
  2.0 + t * (Rsub - 4.0)

/-- The first palette index read by `color_for` for `0 < u < 1`:
`i = int(u * segs)` (line 81). -/
noncomputable def color_idx (u : ℝ) : ℤ :=
  pyTrunc (u * ((CHAR_FG_RAMP.length : ℝ) - 1))

/-- `color_for` (lines 76-85). -/
noncomputable def color_for (u : ℝ) : String :=
  if u ≤ 0 then "\x1b[38;5;240m"
  else if u ≥ 1 then
    "\x1b[38;5;" ++ toString (CHAR_FG_RAMP.getD (CHAR_FG_RAMP.length - 1) 0) ++ "m"
  else
    let segs : ℤ := (CHAR_FG_RAMP.length : ℤ) - 1
    let x := u * ((CHAR_FG_RAMP.length : ℝ) - 1)
    let i := color_idx u
    let t := x - (i : ℝ)
    let c1 := CHAR_FG_RAMP.getD i.toNat 0
    let c2 := CHAR_FG_RAMP.getD (min (i + 1) segs).toNat 0
    "\x1b[38;5;" ++ toString (if t > 1/2 then c2 else c1) ++ "m"

/-! ## The canvas (matrix.py lines 89-176) -/

structure Canvas where
  wc : ℕ
  hc : ℕ
  ws : ℕ
  hs : ℕ
  cx : ℤ
  cy : ℤ
  R : ℤ
  fast : List ℝ
  slow : List ℝ
  hit : List ℤ
  last_fast : ℝ
  last_slow : ℝ

/-- `term_dims` + `BrailleCanvas.resize` (lines 49-63, 98-121): floors of
120 columns / 40 lines, border and two header lines trimmed, 2x4 subpixels
per character cell, all layers zeroed; `t0` is the construction time taken
by `__init__` for both decay timestamps. -/
def mkCanvas (cols lines : ℕ) (t0 : ℝ) : Canvas :=
  let W := max 120 cols
  let H := max 40 lines
  let wc := W - 2
  let hc := H - 4
  let ws := wc * 2
  let hs := hc * 4
  let cx : ℤ := (ws / 2 : ℕ)
  let cy : ℤ := (hs / 2 : ℕ)
  { wc := wc, hc := hc, ws := ws, hs := hs,
    cx := cx, cy := cy, R := min cx cy - 4,
    fast := List.replicate (ws * hs) 0,
    slow := List.replicate (ws * hs) 0,
    hit := List.replicate (ws * hs) 0,
    last_fast := t0, last_slow := t0 }

/-- `_idx` (line 123). -/
def Canvas.idx (cv : Canvas) (x y : ℤ) : ℤ := y * (cv.ws : ℤ) + x

/-- `_in_circle_sub` (lines 125-128). -/
def Canvas.in_circle_sub (cv : Canvas) (x y : ℤ) : Prop :=
  (x - cv.cx) * (x - cv.cx) + (y - cv.cy) * (y - cv.cy) ≤ cv.R * cv.R

instance (cv : Canvas) (x y : ℤ) : Decidable (cv.in_circle_sub x y) := by
  unfold Canvas.in_circle_sub; infer_instance

/-- `decay` (lines 130-141): each layer decays by its own rate raised to
the elapsed seconds since its last decay; the congestion counter decays
with the fast rate, truncated to int. -/
noncomputable def Canvas.decay (cv : Canvas) (now : ℝ) : Canvas :=
  let cv1 :=
    if now - cv.last_fast > 0 then
      { cv with
        fast := cv.fast.map (fun v => v * FAST_DECAY_PER_SEC ^ (now - cv.last_fast)),
        hit := cv.hit.map (fun h : ℤ => pyTrunc ((h : ℝ) * FAST_DECAY_PER_SEC ^ (now - cv.last_fast))),
        last_fast := now }
    else cv
  if now - cv1.last_slow > 0 then
    { cv1 with
      slow := cv1.slow.map (fun v => v * SLOW_DECAY_PER_SEC ^ (now - cv1.last_slow)),
      last_slow := now }
  else cv1

/-- The congestion-aware neighbor search inside `splat_subpixel`
(lines 148-157): four probes, each drawing two `randint(-1,1)` values,
keeping the candidate with the lowest `hit` count and stopping early on a
zero-congestion candidate.  Returns the chosen index, its congestion and
the advanced random source. -/
def Canvas.splatLoop (cv : Canvas) (x y : ℤ) :
    ℕ → ℕ × ℤ × RNG → ℕ × ℤ × RNG
  | 0, st => st
  | n + 1, st =>
    let bi := st.1
    let bh := st.2.1
    let d1 := st.2.2.randint (-1) 1
    let d2 := d1.2.randint (-1) 1
    let g2 := d2.2
    let nx := x + d1.1
    let ny := y + d2.1
    if nx < 0 ∨ (cv.ws : ℤ) ≤ nx ∨ ny < 0 ∨ (cv.hs : ℤ) ≤ ny then
      cv.splatLoop x y n (bi, bh, g2)
    else if ¬ cv.in_circle_sub nx ny then
      cv.splatLoop x y n (bi, bh, g2)
    else
      let ii := (cv.idx nx ny).toNat
      let hh := cv.hit.getD ii 0
      if hh < bh then
        if hh = 0 then (ii, hh, g2)
        else cv.splatLoop x y n (ii, hh, g2)
      else cv.splatLoop x y n (bi, bh, g2)

/-- `splat_subpixel` (lines 143-160): no-op outside the grid or the
inscribed circle, otherwise add `ink` to the fast layer,
`ink * SLOW_GAIN` to the slow layer and 1 to the congestion counter at
the congestion-selected target. -/
def Canvas.splat_subpixel (cv : Canvas) (x y : ℤ) (ink : ℝ) (g : RNG) :
    Canvas × RNG :=
  if x < 0 ∨ (cv.ws : ℤ) ≤ x ∨ y < 0 ∨ (cv.hs : ℤ) ≤ y then (cv, g)
  else if ¬ cv.in_circle_sub x y then (cv, g)
  else
    let i0 := (cv.idx x y).toNat
    let r := cv.splatLoop x y 4 (i0, cv.hit.getD i0 0, g)
    let bi := r.1
    ({ cv with
       fast := cv.fast.set bi (cv.fast.getD bi 0 + ink),
       slow := cv.slow.set bi (cv.slow.getD bi 0 + ink * SLOW_GAIN),
       hit := cv.hit.set bi (cv.hit.getD bi 0 + 1) }, r.2.2)

/-- `start = int(0.2 * r_pix)` (line 164). -/
noncomputable def rayStart (r_pix : ℝ) : ℤ := pyTrunc (0.2 * r_pix)

/-- `steps = max(1, int((r_pix - start) * (RAY_STEPS_PER_M/8.0)))`
(line 165). -/
noncomputable def raySteps (r_pix : ℝ) : ℕ :=
  (max 1 (pyTrunc ((r_pix - (rayStart r_pix : ℝ)) * (RAY_STEPS_PER_M / 8.0)))).toNat

/-- One iteration of the `deposit_ray` loop (lines 166-176): interpolate
the radius, jitter angle and radius, convert to Cartesian subpixels and
splat if inside the grid and circle. -/
noncomputable def Canvas.rayStep (cv : Canvas) (theta r_pix ink : ℝ)
    (steps : ℕ) (s : ℕ) (g : RNG) : Canvas × RNG :=
  let t := (s : ℝ) / ((max 1 (steps - 1) : ℕ) : ℝ)
  let r := (rayStart r_pix : ℝ) + t * (r_pix - (rayStart r_pix : ℝ))
  let u1 := g.uniform (-JITTER_ARC_DEG) JITTER_ARC_DEG
  let dth := u1.1 * (Real.pi / 180)
  let u2 := u1.2.uniform (-JITTER_R_FRAC) JITTER_R_FRAC
  let g2 := u2.2
  let rr := r * (1 + u2.1)
  let th := theta + dth
  let x := pyRound ((cv.cx : ℝ) + rr * Real.cos th)
  let y := pyRound ((cv.cy : ℝ) + rr * Real.sin th)
  if 0 ≤ x ∧ x < (cv.ws : ℤ) ∧ 0 ≤ y ∧ y < (cv.hs : ℤ) ∧ cv.in_circle_sub x y then
    cv.splat_subpixel x y ink g2
  else (cv, g2)

/-- `deposit_ray` (lines 162-176). -/
noncomputable def Canvas.deposit_ray (cv : Canvas) (theta r_pix ink : ℝ)
    (g : RNG) : Canvas × RNG :=
  (List.range (raySteps r_pix)).foldl
    (fun st s => st.1.rayStep theta r_pix ink (raySteps r_pix) s st.2) (cv, g)

/-! ## Signal conditioning and ingestion (matrix.py lines 265-304) -/

/-- `motion_u = max(0.0, motion_ema)` (line 284). -/
noncomputable def motionUnit (motion_ema : ℝ) : ℝ := max 0 motion_ema

/-- `drssi_u = clamp(abs(d_rs), 0.0, DRSSI_CLAMP) / DRSSI_CLAMP`
(line 285). -/
noncomputable def drssiUnit (d_rs : ℝ) : ℝ :=
  clamp |d_rs| 0 DRSSI_CLAMP / DRSSI_CLAMP

/-- The sample count `k` (lines 287-290): base plus truncated
contributions from the motion and rate-of-change units, capped at
`MAX_SAMPLES_PER`. -/
noncomputable def kOf (motion_u drssi_u : ℝ) : ℤ :=
  let k := BASE_SAMPLES + pyTrunc (SAMPLES_PER_MOTION * motion_u)
    + pyTrunc (SAMPLES_PER_DRSSI * drssi_u)
  if k > MAX_SAMPLES_PER then MAX_SAMPLES_PER else k

/-- `ink_per = (0.9*motion_u + 0.1*drssi_u) / max(1, k)` (line 299). -/
noncomputable def inkPer (motion_u drssi_u : ℝ) (k : ℤ) : ℝ :=
  (0.9 * motion_u + 0.1 * drssi_u) / ((max 1 k : ℤ) : ℝ)

/-- The deposition part of `Engine.ingest` (lines 283-304): derive the
units, the sample count `k`, the radius and the per-micro-deposit ink,
then run `k` micro-deposits, each with its own angular and radial jitter,
through `deposit_ray`.  The angle `theta` (an MD5 hash of the MAC in the
source) and the random source are inputs. -/
noncomputable def Canvas.ingestDeposit (cv : Canvas)
    (theta rssi_ema motion_ema d_rs : ℝ) (g : RNG) : Canvas × RNG :=
  let motion_u := motionUnit motion_ema
  let drssi_u := drssiUnit d_rs
  let k := kOf motion_u drssi_u
  let r_pix := rssi_to_radius_pix rssi_ema (cv.R : ℝ)
  let ink_per := inkPer motion_u drssi_u k
  (List.range k.toNat).foldl
    (fun st _ =>
      let u1 := st.2.uniform (-JITTER_ARC_DEG) JITTER_ARC_DEG
      let dth := u1.1 * (Real.pi / 180)
      let u2 := u1.2.uniform (-JITTER_R_FRAC) JITTER_R_FRAC
      let rr := r_pix * (1 + u2.1)
      st.1.deposit_ray (theta + dth) rr ink_per u2.2) (cv, g)

/-- Modelled from the spec: the spec describes the sample count as
`k = base + round(samplesPerMotion · motionUnit) +
round(samplesPerRateOfChange · rateUnit)`, capped at a hard maximum —
with round-to-nearest where the code truncates.  Stated here for
comparison with `kOf`. -/
noncomputable def kOfSpecRounded (motion_u drssi_u : ℝ) : ℤ :=
  min MAX_SAMPLES_PER (BASE_SAMPLES + round (SAMPLES_PER_MOTION * motion_u)
    + round (SAMPLES_PER_DRSSI * drssi_u))

/-- Total ink held by the fast layer. -/
def fastSum (cv : Canvas) : ℝ := cv.fast.sum

/-- An upper bound on the number of splats a single micro-deposit's ray
can make: the radial jitter keeps the ray's radius at most
`(1 + JITTER_R_FRAC) * r_pix`, and `raySteps` of any such radius is at
most this quantity. -/
noncomputable def rayStepsBound (r_pix : ℝ) : ℝ :=
  max 1 ((RAY_STEPS_PER_M / 8) * (0.8 * ((1 + JITTER_R_FRAC) * r_pix) + 1))

/-! ## Frame rendering (matrix.py lines 178-242) -/

/-- The precomputed `cell_mask` entry for character cell `(i, j)`
(lines 112-121): whether the cell center `(i*2+1, j*4+2)` in subpixel
coordinates lies inside the inscribed circle. -/
def Canvas.cellMaskAt (cv : Canvas) (i j : ℕ) : Prop :=
  ((i : ℤ) * 2 + 1 - cv.cx) * ((i : ℤ) * 2 + 1 - cv.cx)
    + ((j : ℤ) * 4 + 2 - cv.cy) * ((j : ℤ) * 4 + 2 - cv.cy) ≤ cv.R * cv.R

instance (cv : Canvas) (i j : ℕ) : Decidable (cv.cellMaskAt i j) := by
  unfold Canvas.cellMaskAt; infer_instance

/-- `merged[i] = fast[i] + slow[i]` (line 180). -/
def Canvas.merged (cv : Canvas) : List ℝ :=
  List.zipWith (fun f s => f + s) cv.fast cv.slow

/-- The adaptive brightness divisor `q` (lines 183-187), applied to the
already sorted value list: index at the configured percentile, clamped
into range, with a floor that replaces a near-zero percentile value by
`max(vals[-1], 1.0)`. -/
noncomputable def qOf (vals : List ℝ) : ℝ :=
  let q_idx := clamp (pyTrunc (HISTO_EQ_FRACTION * (vals.length : ℝ)) - 1)
    0 ((vals.length : ℤ) - 1)
  let q := if vals = [] then 1 else vals.getD q_idx.toNat 0
  if q ≤ 1e-9 then max (vals.getD (vals.length - 1) 0) 1 else q

/-- The per-subpixel normalization inside the cell loop (lines 220-221):
`v = merged[idx] / q`, clamped down to 1. -/
noncomputable def normVal (m q : ℝ) : ℝ :=
  let v := m / q
  if v > 1 then 1 else v

/-- The dot-position-to-bit mapping of lines 225-232. -/
def dot_bits (sx sy : ℕ) : ℕ :=
  if sx = 0 ∧ sy = 0 then 0x01
  else if sx = 0 ∧ sy = 1 then 0x02
  else if sx = 0 ∧ sy = 2 then 0x04
  else if sx = 0 ∧ sy = 3 then 0x40
  else if sx = 1 ∧ sy = 0 then 0x08
  else if sx = 1 ∧ sy = 1 then 0x10
  else if sx = 1 ∧ sy = 2 then 0x20
  else if sx = 1 ∧ sy = 3 then 0x80
  else 0

/-- The 2x4 subpixel gather of lines 213-232: the Braille bit mask and
the accumulated clamped intensity of character cell `(i, j)`. -/
noncomputable def Canvas.cellData (cv : Canvas) (merged : List ℝ) (q : ℝ)
    (i j : ℕ) : ℕ × ℝ :=
  (List.range 4).foldl
    (fun acc sy =>
      (List.range 2).foldl
        (fun acc sx =>
          let x := i * 2 + sx
          let y := j * 4 + sy
          let v := normVal (merged.getD (y * cv.ws + x) 0) q
          ((if v > 0.12 then acc.1 ||| dot_bits sx sy else acc.1), acc.2 + v))
        acc)
    (0, 0)

/-- The per-cell renderer of lines 203-236: a blank for a masked-out
cell, otherwise the color escape of the average intensity followed by the
Braille glyph of the dot mask (blank on a zero mask). -/
noncomputable def Canvas.renderCell (cv : Canvas) (merged : List ℝ) (q : ℝ)
    (i j : ℕ) : String :=
  if ¬ cv.cellMaskAt i j then " "
  else
    let bq := cv.cellData merged q i j
    let u := clamp (bq.2 / 8) 0 1
    let col := color_for u
    let ch := if bq.1 ≠ 0 then String.mk [Char.ofNat (0x2800 + bq.1)] else " "
    col ++ ch

/-! ## Engine and main loop (matrix.py lines 244-342) -/

/-- One per-MAC entry of `Engine.state` (line 250). -/
structure MacState where
  rssi_ema : ℝ
  motion_ema : ℝ
  last_t : ℝ
  last_rssi : ℝ

structure EngineState where
  cv : Canvas
  macs : String → Option MacState
  last_draw : ℝ
  seed_counter : ℕ

/-- `Engine.ingest` (lines 265-304): EMA update and `dRSSI/dt` for the
MAC's state, then the deposition of `ingestDeposit`.  The per-MAC angle
(an MD5 hash in the source) and the seeded random source are inputs. -/
noncomputable def EngineState.ingest (es : EngineState) (mac : String)
    (rssi motion now theta : ℝ) (g : RNG) : EngineState × RNG :=
  let upd := fun (st : MacState) (d_rs : ℝ) =>
    let r := es.cv.ingestDeposit theta st.rssi_ema st.motion_ema d_rs g
    ({ es with
       cv := r.1,
       macs := fun m => if m = mac then some st else es.macs m,
       seed_counter := es.seed_counter + 1 }, r.2)
  match es.macs mac with
  | none =>
    upd { rssi_ema := rssi, motion_ema := motion, last_t := now,
          last_rssi := rssi } 0.0
  | some prev =>
    let re := EMA_RSSI_ALPHA * rssi + (1 - EMA_RSSI_ALPHA) * prev.rssi_ema
    let me := EMA_MOTION_ALPHA * motion + (1 - EMA_MOTION_ALPHA) * prev.motion_ema
    let dt := max 1e-3 (now - prev.last_t)
    let d_rs := (rssi - prev.last_rssi) / dt
    upd { rssi_ema := re, motion_ema := me, last_t := now, last_rssi := rssi }
      d_rs

/-- `Engine.tick` (lines 306-315): always decay; emit a frame (pure
output) and remember the draw time only when `1/TARGET_FPS` seconds have
elapsed since the last draw. -/
noncomputable def EngineState.tick (es : EngineState) (now : ℝ) : EngineState :=
  let cv1 := es.cv.decay now
  if now - es.last_draw ≥ 1.0 / TARGET_FPS then
    { es with cv := cv1, last_draw := now }
  else
    { es with cv := cv1 }

/-- The per-line body of `main`'s loop (lines 320-337).  Python's
`float(..)` (whose `ValueError` the source catches) is modelled by the
total parser `parseF`. -/
noncomputable def mainStep (parseF : String → Option ℝ) (es : EngineState)
    (now theta : ℝ) (g : RNG) (line : String) : EngineState × RNG :=
  let s := line.trim
  if s = "" ∨ s.startsWith "cnt" then (es.tick now, g)
  else
    let parts := s.splitOn ","
    if parts.length < 3 then (es.tick now, g)
    else
      match parseF (parts.getD 1 ""), parseF (parts.getD 2 "") with
      | some rssi, some motion =>
        let mac := (parts.getD 0 "").trim.toLower
        let r := es.ingest mac rssi motion now theta g
        (r.1.tick now, r.2)
      | _, _ => (es.tick now, g)

/-- A line `main` skips without depositing: blank after trimming, the
ignorable `cnt` prefix, fewer than three comma fields, or an unparsable
strength or motion field. -/
def malformedLine (parseF : String → Option ℝ) (line : String) : Prop :=
  line.trim = "" ∨ line.trim.startsWith "cnt"
    ∨ (line.trim.splitOn ",").length < 3
    ∨ parseF ((line.trim.splitOn ",").getD 1 "") = none
    ∨ parseF ((line.trim.splitOn ",").getD 2 "") = none

/-! ## Operation sequences over the canvas (for the state invariant) -/

/-- A canvas-mutating operation: one observation's deposition (with the
conditioned signal values and the random source as inputs) or one decay
application. -/
inductive Op where
  | ingest (theta rssi_ema motion_ema d_rs : ℝ) (g : RNG)
  | decayAt (now : ℝ)

noncomputable def Canvas.applyOp (cv : Canvas) : Op → Canvas
  | .ingest theta re me dr g => (cv.ingestDeposit theta re me dr g).1
  | .decayAt now => cv.decay now

noncomputable def Canvas.runOps (cv : Canvas) (ops : List Op) : Canvas :=
  ops.foldl Canvas.applyOp cv

/-- The canvas invariant of the spec's data model: non-negative scalar
layers and a non-negative integer congestion counter. -/
def NonnegCanvas (cv : Canvas) : Prop :=
  (∀ v ∈ cv.fast, 0 ≤ v) ∧ (∀ v ∈ cv.slow, 0 ≤ v) ∧ (∀ h ∈ cv.hit, 0 ≤ h)

/-! ## Helper lemmas -/

theorem pyTrunc_of_nonneg {x : ℝ} (h : 0 ≤ x) : pyTrunc x = ⌊x⌋ := if_pos h

theorem pyTrunc_nonneg {x : ℝ} (h : 0 ≤ x) : 0 ≤ pyTrunc x := by
  rw [pyTrunc_of_nonneg h]; exact Int.floor_nonneg.mpr h

theorem pyTrunc_le {x : ℝ} (h : 0 ≤ x) : (pyTrunc x : ℝ) ≤ x := by
  rw [pyTrunc_of_nonneg h]; exact Int.floor_le x

theorem lt_pyTrunc_add_one {x : ℝ} (h : 0 ≤ x) : x < (pyTrunc x : ℝ) + 1 := by
  rw [pyTrunc_of_nonneg h]; exact Int.lt_floor_add_one x

theorem le_clamp {α : Type} [LinearOrder α] (a lo hi : α) (h : lo ≤ hi) :
    lo ≤ clamp a lo hi := by
  unfold clamp; split_ifs with h1 h2
  · exact le_rfl
  · exact h
  · exact le_of_not_lt h1

theorem clamp_le {α : Type} [LinearOrder α] (a lo hi : α) (h : lo ≤ hi) :
    clamp a lo hi ≤ hi := by
  unfold clamp; split_ifs with h1 h2
  · exact h
  · exact le_rfl
  · exact le_of_not_lt h2

theorem clamp_mono (a b lo hi : ℝ) (hlh : lo ≤ hi) (h : a ≤ b) :
    clamp a lo hi ≤ clamp b lo hi := by
  unfold clamp; split_ifs <;> linarith

theorem clamp_eq_of_le (a lo hi : ℝ) (ha : a ≤ lo) (hlh : lo ≤ hi) :
    clamp a lo hi = lo := by
  unfold clamp; split_ifs <;> linarith

theorem clamp_eq_of_ge (a lo hi : ℝ) (ha : hi ≤ a) (hlh : lo ≤ hi) :
    clamp a lo hi = hi := by
  unfold clamp; split_ifs <;> linarith

/-- `rssi_to_radius_pix`'s sequential clamping is the `clamp` of the
RSSI into `[RSSI_FAR, RSSI_NEAR]`. -/
theorem rssi_eq_clamp (s Rsub : ℝ) :
    rssi_to_radius_pix s Rsub =
      2 + ((RSSI_NEAR - clamp s RSSI_FAR RSSI_NEAR) / (RSSI_NEAR - RSSI_FAR))
        * (Rsub - 4) := by
  simp only [rssi_to_radius_pix, clamp, RSSI_NEAR, RSSI_FAR]
  split_ifs <;> linarith

theorem rssi_radius_range (s Rsub : ℝ) (hR : 4 ≤ Rsub) :
    2 ≤ rssi_to_radius_pix s Rsub ∧ rssi_to_radius_pix s Rsub ≤ Rsub - 2 := by
  rw [rssi_eq_clamp]
  have hnf : RSSI_FAR ≤ RSSI_NEAR := by norm_num [RSSI_NEAR, RSSI_FAR]
  have h1 := le_clamp s RSSI_FAR RSSI_NEAR hnf
  have h2 := clamp_le s RSSI_FAR RSSI_NEAR hnf
  have hd : RSSI_NEAR - RSSI_FAR = 60 := by norm_num [RSSI_NEAR, RSSI_FAR]
  have hF : RSSI_FAR = -90 := by norm_num [RSSI_FAR]
  rw [hd]
  constructor
  · have ht0 : 0 ≤ (RSSI_NEAR - clamp s RSSI_FAR RSSI_NEAR) / 60 :=
      div_nonneg (by linarith) (by norm_num)
    nlinarith [mul_nonneg ht0 (by linarith : (0:ℝ) ≤ Rsub - 4)]
  · have ht1 : (RSSI_NEAR - clamp s RSSI_FAR RSSI_NEAR) / 60 ≤ 1 := by
      rw [div_le_one (by norm_num : (0:ℝ) < 60)]; linarith
    have := mul_le_mul_of_nonneg_right ht1 (by linarith : (0:ℝ) ≤ Rsub - 4)
    linarith

/-- Claim C2 counterexample: at the weakest in-range strength the radius
is `maxRadius - 2`, which is strictly greater than the `maxRadius - 4`
the claim allows. -/
theorem c2_radius_counterexample :
    rssi_to_radius_pix (-90) 100 = 98 ∧ ¬ rssi_to_radius_pix (-90) 100 ≤ 100 - 4 := by
  have h : rssi_to_radius_pix (-90) 100 = 98 := by
    norm_num [rssi_to_radius_pix, RSSI_NEAR, RSSI_FAR]
  exact ⟨h, by rw [h]; norm_num⟩

/-- Claim C2 (amended): for every `maxRadius ≥ 4`, `rssi_to_radius_pix`
is monotonically non-increasing in signal strength, its result lies in
`[2, maxRadius - 2]` subpixels, and strengths outside the configured
`[RSSI_FAR, RSSI_NEAR]` range saturate to the range endpoints. -/
theorem c2_radius_of (Rsub s s1 s2 : ℝ) (hR : 4 ≤ Rsub) (h12 : s1 ≤ s2) :
    rssi_to_radius_pix s2 Rsub ≤ rssi_to_radius_pix s1 Rsub
    ∧ 2 ≤ rssi_to_radius_pix s Rsub
    ∧ rssi_to_radius_pix s Rsub ≤ Rsub - 2
    ∧ (s ≤ RSSI_FAR → rssi_to_radius_pix s Rsub = rssi_to_radius_pix RSSI_FAR Rsub)
    ∧ (RSSI_NEAR ≤ s → rssi_to_radius_pix s Rsub = rssi_to_radius_pix RSSI_NEAR Rsub) := by
  have hnf : RSSI_FAR ≤ RSSI_NEAR := by norm_num [RSSI_NEAR, RSSI_FAR]
  have hd : RSSI_NEAR - RSSI_FAR = 60 := by norm_num [RSSI_NEAR, RSSI_FAR]
  refine ⟨?_, (rssi_radius_range s Rsub hR).1, (rssi_radius_range s Rsub hR).2, ?_, ?_⟩
  · rw [rssi_eq_clamp, rssi_eq_clamp, hd]
    have hc := clamp_mono s1 s2 RSSI_FAR RSSI_NEAR hnf h12
    have hmul := mul_le_mul_of_nonneg_right
      (show (RSSI_NEAR - clamp s2 RSSI_FAR RSSI_NEAR) / 60
          ≤ (RSSI_NEAR - clamp s1 RSSI_FAR RSSI_NEAR) / 60 by linarith)
      (show (0:ℝ) ≤ Rsub - 4 by linarith)
    linarith
  · intro hs
    rw [rssi_eq_clamp, rssi_eq_clamp,
      clamp_eq_of_le s RSSI_FAR RSSI_NEAR hs hnf,
      clamp_eq_of_le RSSI_FAR RSSI_FAR RSSI_NEAR le_rfl hnf]
  · intro hs
    rw [rssi_eq_clamp, rssi_eq_clamp,
      clamp_eq_of_ge s RSSI_FAR RSSI_NEAR hs hnf,
      clamp_eq_of_ge RSSI_NEAR RSSI_FAR RSSI_NEAR le_rfl hnf]

/-- Witness for `c2_radius_of` at `maxRadius = 100` and concrete
strengths. -/
theorem c2_radius_witness :
    rssi_to_radius_pix (-50) 100 ≤ rssi_to_radius_pix (-80) 100
    ∧ 2 ≤ rssi_to_radius_pix (-60) 100
    ∧ rssi_to_radius_pix (-60) 100 ≤ 100 - 2
    ∧ ((-60:ℝ) ≤ RSSI_FAR → rssi_to_radius_pix (-60) 100 = rssi_to_radius_pix RSSI_FAR 100)
    ∧ (RSSI_NEAR ≤ (-60:ℝ) → rssi_to_radius_pix (-60) 100 = rssi_to_radius_pix RSSI_NEAR 100) :=
  c2_radius_of 100 (-60) (-80) (-50) (by norm_num) (by norm_num)

/-! ## Sample count (claims C6, C7) -/

theorem motionUnit_nonneg (me : ℝ) : 0 ≤ motionUnit me := le_max_left 0 me

theorem drssiUnit_nonneg (dr : ℝ) : 0 ≤ drssiUnit dr :=
  div_nonneg (le_clamp |dr| 0 DRSSI_CLAMP (by norm_num [DRSSI_CLAMP]))
    (by norm_num [DRSSI_CLAMP])

theorem pyTrunc_motion_nonneg (me : ℝ) :
    0 ≤ pyTrunc (SAMPLES_PER_MOTION * motionUnit me) :=
  pyTrunc_nonneg (mul_nonneg (by norm_num [SAMPLES_PER_MOTION]) (motionUnit_nonneg me))

theorem pyTrunc_drssi_nonneg (dr : ℝ) :
    0 ≤ pyTrunc (SAMPLES_PER_DRSSI * drssiUnit dr) :=
  pyTrunc_nonneg (mul_nonneg (by norm_num [SAMPLES_PER_DRSSI]) (drssiUnit_nonneg dr))

/-- Claim C6: for every motion and rate-of-change input, the derived
sample count lies in `[BASE_SAMPLES, MAX_SAMPLES_PER]` = `[24, 600]`; in
particular it is at least the base because the motion unit is floored at
0 and the rate unit clamped before the count is computed. -/
theorem c6_sample_count_bounds (me dr : ℝ) :
    24 ≤ kOf (motionUnit me) (drssiUnit dr)
    ∧ kOf (motionUnit me) (drssiUnit dr) ≤ 600 := by
  have h1 := pyTrunc_motion_nonneg me
  have h2 := pyTrunc_drssi_nonneg dr
  simp only [kOf, BASE_SAMPLES, MAX_SAMPLES_PER]
  split_ifs with h <;> omega

/-- Claim C7 (amended): the sample count is
`min MAX_SAMPLES_PER (base + ⌊samplesPerMotion·motionUnit⌋ +
⌊samplesPerRateOfChange·rateUnit⌋)` — the coefficient-scaled unit
contributions are truncated toward zero (a floor, as both are
non-negative), not rounded to nearest, before summation, and the sum is
capped at the hard maximum. -/
theorem c7_sample_count_formula (me dr : ℝ) :
    kOf (motionUnit me) (drssiUnit dr)
      = min MAX_SAMPLES_PER (BASE_SAMPLES + ⌊SAMPLES_PER_MOTION * motionUnit me⌋
          + ⌊SAMPLES_PER_DRSSI * drssiUnit dr⌋) := by
  simp only [kOf]
  rw [pyTrunc_of_nonneg
      (mul_nonneg (by norm_num [SAMPLES_PER_MOTION]) (motionUnit_nonneg me)),
    pyTrunc_of_nonneg
      (mul_nonneg (by norm_num [SAMPLES_PER_DRSSI]) (drssiUnit_nonneg dr))]
  split_ifs with h
  · exact (min_eq_left (le_of_lt h)).symm
  · exact (min_eq_right (le_of_not_lt h)).symm

/-- Claim C7 counterexample: at a smoothed motion of `0.59` and zero
rate of change the code's truncation gives `k = 24 + 5 = 29`, while the
claim's round-to-nearest formula gives `24 + 6 = 30`. -/
theorem c7_sample_count_counterexample :
    kOf (motionUnit (59/100)) (drssiUnit 0) = 29
    ∧ kOfSpecRounded (motionUnit (59/100)) (drssiUnit 0) = 30 := by
  have hmu : motionUnit (59/100) = 59/100 := by
    unfold motionUnit; rw [max_eq_right (by norm_num : (0:ℝ) ≤ 59/100)]
  have hdu : drssiUnit 0 = 0 := by
    unfold drssiUnit clamp
    norm_num [DRSSI_CLAMP]
  have hf : ⌊(SAMPLES_PER_MOTION : ℝ) * (59/100)⌋ = 5 := by
    apply Int.floor_eq_iff.mpr
    constructor <;> norm_num [SAMPLES_PER_MOTION]
  have hf0 : ⌊(SAMPLES_PER_DRSSI : ℝ) * 0⌋ = 0 := by
    norm_num
  have hr : round ((SAMPLES_PER_MOTION : ℝ) * (59/100)) = 6 := by
    rw [round_eq]
    apply Int.floor_eq_iff.mpr
    constructor <;> norm_num [SAMPLES_PER_MOTION]
  constructor
  · rw [hmu, hdu]
    simp only [kOf]
    rw [pyTrunc_of_nonneg (by norm_num [SAMPLES_PER_MOTION]),
      pyTrunc_of_nonneg (by norm_num [SAMPLES_PER_DRSSI]), hf, hf0]
    norm_num [BASE_SAMPLES, MAX_SAMPLES_PER]
  · rw [hmu, hdu]
    unfold kOfSpecRounded
    rw [hr]
    norm_num [BASE_SAMPLES, MAX_SAMPLES_PER]

/-! ## Color mapping (claim C10) -/

/-- Claim C10: `color_for` is total and never indexes the palette out of
bounds: non-positive intensity yields the fixed grey escape, intensity at
least 1 yields the last palette entry's escape, and for intermediate
intensity both indices it reads are valid positions of `CHAR_FG_RAMP`. -/
theorem c10_color_for_total (u : ℝ) :
    (u ≤ 0 → color_for u = "\x1b[38;5;240m")
    ∧ (u ≥ 1 → color_for u = "\x1b[38;5;196m")
    ∧ (0 < u → u < 1 →
        (color_idx u).toNat < CHAR_FG_RAMP.length
        ∧ (min (color_idx u + 1) ((CHAR_FG_RAMP.length : ℤ) - 1)).toNat
            < CHAR_FG_RAMP.length) := by
  refine ⟨fun h => ?_, fun h => ?_, fun h0 h1 => ?_⟩
  · unfold color_for; rw [if_pos h]
  · unfold color_for
    rw [if_neg (not_le.mpr (by linarith)), if_pos h]
    rfl
  · have hlen : ((CHAR_FG_RAMP.length : ℝ) - 1) = 4 := by
      norm_num [CHAR_FG_RAMP]
    have hx0 : 0 ≤ u * ((CHAR_FG_RAMP.length : ℝ) - 1) := by
      rw [hlen]; positivity
    have hidx : color_idx u = ⌊u * ((CHAR_FG_RAMP.length : ℝ) - 1)⌋ := by
      unfold color_idx; exact pyTrunc_of_nonneg hx0
    have hge : 0 ≤ color_idx u := by
      rw [hidx]; exact Int.floor_nonneg.mpr hx0
    have hlt : color_idx u < 4 := by
      rw [hidx]
      apply Int.floor_lt.mpr
      rw [hlen]
      push_cast
      nlinarith
    have hL : CHAR_FG_RAMP.length = 5 := rfl
    rw [hL]
    omega

/-- Witness for `c10_color_for_total` at `u = -1`, `u = 2` and
`u = 1/2`. -/
theorem c10_color_for_witness :
    color_for (-1) = "\x1b[38;5;240m"
    ∧ color_for 2 = "\x1b[38;5;196m"
    ∧ (color_idx (1/2)).toNat < CHAR_FG_RAMP.length :=
  ⟨(c10_color_for_total (-1)).1 (by norm_num),
   (c10_color_for_total 2).2.1 (by norm_num),
   ((c10_color_for_total (1/2)).2.2 (by norm_num) (by norm_num)).1⟩

/-! ## Adaptive brightness divisor (claim C8) -/

theorem zipWith_add_replicate_zero (n : ℕ) :
    List.zipWith (fun f s => f + s) (List.replicate n (0:ℝ))
      (List.replicate n 0) = List.replicate n 0 := by
  induction n with
  | zero => rfl
  | succ n ih => simp only [List.replicate_succ, List.zipWith_cons_cons, ih, add_zero]

theorem sorted_le_replicate (n : ℕ) :
    List.Sorted (· ≤ ·) (List.replicate n (0:ℝ)) := by
  induction n with
  | zero => exact List.sorted_nil
  | succ n ih =>
    rw [List.replicate_succ]
    exact List.sorted_cons.mpr
      ⟨fun b hb => le_of_eq (List.eq_of_mem_replicate hb).symm, ih⟩

theorem merged_mkCanvas (c l : ℕ) (t0 : ℝ) :
    (mkCanvas c l t0).merged
      = List.replicate ((max 120 c - 2) * 2 * ((max 40 l - 4) * 4)) 0 := by
  simp only [mkCanvas, Canvas.merged]
  exact zipWith_add_replicate_zero _

/-- Claim C8: for every canvas state, the adaptive brightness divisor `q`
computed by `render` over any sorted arrangement of the merged values is
strictly positive (the `1e-9` floor replaces a vanishing percentile value
by `max(vals[-1], 1.0)`), so the per-subpixel normalization never
divides by zero and maps non-negative merged values into `[0, 1]`. -/
theorem c8_q_positive (cv : Canvas) (vals : List ℝ) (hp : vals.Perm cv.merged)
    (hs : vals.Sorted (· ≤ ·)) (m : ℝ) (hm : 0 ≤ m) :
    0 < qOf vals ∧ 0 ≤ normVal m (qOf vals) ∧ normVal m (qOf vals) ≤ 1 := by
  have heps : (0:ℝ) < 1e-9 := by norm_num
  have hq : 0 < qOf vals := by
    simp only [qOf]
    split_ifs with h1 h2 h3
    · exact lt_of_lt_of_le one_pos (le_max_right _ _)
    · linarith
    · exact lt_of_lt_of_le one_pos (le_max_right _ _)
    · linarith
  refine ⟨hq, ?_, ?_⟩
  · simp only [normVal]
    split_ifs with h
    · norm_num
    · exact div_nonneg hm hq.le
  · simp only [normVal]
    split_ifs with h
    · norm_num
    · exact le_of_not_lt h

/-- Witness for `c8_q_positive` on the freshly constructed (all-zero)
canvas, whose merged list is its own sorted arrangement. -/
theorem c8_q_witness :
    0 < qOf (mkCanvas 0 0 0).merged
    ∧ 0 ≤ normVal 0 (qOf (mkCanvas 0 0 0).merged)
    ∧ normVal 0 (qOf (mkCanvas 0 0 0).merged) ≤ 1 :=
  c8_q_positive (mkCanvas 0 0 0) ((mkCanvas 0 0 0).merged) (List.Perm.refl _)
    (by rw [merged_mkCanvas]; exact sorted_le_replicate _) 0 le_rfl

/-! ## Circular active region (claim C1) -/

/-- Claim C1: splatting at a subpixel outside the grid or outside the
inscribed circle leaves the whole canvas (and the random source)
unchanged, and a character cell whose center lies outside the inscribed
circle renders as a blank space whatever the layers hold. -/
theorem c1_circle_region (cv : Canvas) (x y : ℤ) (ink : ℝ) (g : RNG)
    (merged : List ℝ) (q : ℝ) (i j : ℕ)
    (hxy : x < 0 ∨ (cv.ws : ℤ) ≤ x ∨ y < 0 ∨ (cv.hs : ℤ) ≤ y ∨ ¬ cv.in_circle_sub x y)
    (hcell : ¬ cv.cellMaskAt i j) :
    cv.splat_subpixel x y ink g = (cv, g) ∧ cv.renderCell merged q i j = " " := by
  constructor
  · unfold Canvas.splat_subpixel
    by_cases hb : x < 0 ∨ (cv.ws : ℤ) ≤ x ∨ y < 0 ∨ (cv.hs : ℤ) ≤ y
    · rw [if_pos hb]
    · have hc : ¬ cv.in_circle_sub x y := by tauto
      rw [if_neg hb, if_pos hc]
  · unfold Canvas.renderCell
    rw [if_pos hcell]

/-- Witness for `c1_circle_region`: the default-size canvas, the
subpixel `(-1, 0)` and the corner cell `(0, 0)`, whose center is outside
the inscribed circle. -/
theorem c1_circle_witness :
    (mkCanvas 0 0 0).splat_subpixel (-1) 0 0 ⟨fun _ => 0, fun _ => 0, 0, 0⟩
      = (mkCanvas 0 0 0, ⟨fun _ => 0, fun _ => 0, 0, 0⟩)
    ∧ (mkCanvas 0 0 0).renderCell [] 1 0 0 = " " :=
  c1_circle_region (mkCanvas 0 0 0) (-1) 0 0 ⟨fun _ => 0, fun _ => 0, 0, 0⟩
    [] 1 0 0 (Or.inl (by norm_num)) (by decide)

/-! ## Decay helpers -/

/-- `decay` is the identity when no time has elapsed on either layer. -/
theorem decay_noop (cv : Canvas) (now : ℝ) (hf : now - cv.last_fast = 0)
    (hsl : now - cv.last_slow = 0) : cv.decay now = cv := by
  simp only [Canvas.decay]
  rw [hf, if_neg (lt_irrefl 0), hsl, if_neg (lt_irrefl 0)]

/-! ## Malformed input lines (claim C4) -/

/-- Claim C4: a malformed line (blank, `cnt`-prefixed, fewer than three
comma fields, or a non-numeric strength or motion field) is processed
without any exception escaping the loop (the step function is total and
the `float` failure is the parser returning `none`): the step reduces to
the draw-attempt `tick`, which applies only time-driven decay — the
entity map is untouched, no deposition happens, and if no time has
elapsed since the last decays the canvas is literally unchanged. -/
theorem c4_malformed_no_deposit (parseF : String → Option ℝ) (es : EngineState)
    (now theta : ℝ) (g : RNG) (line : String)
    (h : malformedLine parseF line) :
    mainStep parseF es now theta g line = (es.tick now, g)
    ∧ (es.tick now).cv = es.cv.decay now
    ∧ (es.tick now).macs = es.macs
    ∧ (now = es.cv.last_fast → now = es.cv.last_slow →
        (mainStep parseF es now theta g line).1.cv = es.cv) := by
  have htickcv : (es.tick now).cv = es.cv.decay now := by
    unfold EngineState.tick; split_ifs <;> rfl
  have htickmacs : (es.tick now).macs = es.macs := by
    unfold EngineState.tick; split_ifs <;> rfl
  have hmain : mainStep parseF es now theta g line = (es.tick now, g) := by
    unfold mainStep
    by_cases h0 : line.trim = "" ∨ line.trim.startsWith "cnt"
    · rw [if_pos h0]
    · rw [if_neg h0]
      by_cases h1 : (line.trim.splitOn ",").length < 3
      · rw [if_pos h1]
      · rw [if_neg h1]
        rcases h with h | h | h | h | h
        · exact absurd (Or.inl h) h0
        · exact absurd (Or.inr h) h0
        · exact absurd h h1
        · rw [h]
        · rw [h]
          rcases parseF ((line.trim.splitOn ",").getD 1 "") with _ | v <;> rfl
  refine ⟨hmain, htickcv, htickmacs, fun hf hs => ?_⟩
  rw [hmain]
  have e1 : now - es.cv.last_fast = 0 := by rw [hf, sub_self]
  have e2 : now - es.cv.last_slow = 0 := by rw [hs]; exact sub_self _
  rw [htickcv]
  exact decay_noop es.cv now e1 e2

/-- Witness for `c4_malformed_no_deposit` on the two-field line
`"x,y"`. -/
theorem c4_malformed_witness :
    mainStep (fun _ => none)
        ⟨mkCanvas 0 0 0, fun _ => none, 0, 0⟩ 0 0
        ⟨fun _ => 0, fun _ => 0, 0, 0⟩ "x,y"
      = (EngineState.tick ⟨mkCanvas 0 0 0, fun _ => none, 0, 0⟩ 0,
          ⟨fun _ => 0, fun _ => 0, 0, 0⟩)
    ∧ (EngineState.tick ⟨mkCanvas 0 0 0, fun _ => none, 0, 0⟩ 0).cv
        = (mkCanvas 0 0 0).decay 0
    ∧ (EngineState.tick ⟨mkCanvas 0 0 0, fun _ => none, 0, 0⟩ 0).macs
        = (fun _ => none)
    ∧ ((0:ℝ) = (mkCanvas 0 0 0).last_fast → (0:ℝ) = (mkCanvas 0 0 0).last_slow →
        (mainStep (fun _ => none)
            ⟨mkCanvas 0 0 0, fun _ => none, 0, 0⟩ 0 0
            ⟨fun _ => 0, fun _ => 0, 0, 0⟩ "x,y").1.cv = mkCanvas 0 0 0) :=
  c4_malformed_no_deposit (fun _ => none)
    ⟨mkCanvas 0 0 0, fun _ => none, 0, 0⟩ 0 0
    ⟨fun _ => 0, fun _ => 0, 0, 0⟩ "x,y"
    (Or.inr (Or.inr (Or.inr (Or.inl rfl))))

/-! ## Decay component lemmas (claim C5) -/

theorem decay_fast_pos (cv : Canvas) (now : ℝ) (h : 0 < now - cv.last_fast) :
    (cv.decay now).fast
      = cv.fast.map (fun v => v * FAST_DECAY_PER_SEC ^ (now - cv.last_fast)) := by
  simp only [Canvas.decay]
  rw [if_pos h]
  split_ifs <;> rfl

theorem decay_fast_nonpos (cv : Canvas) (now : ℝ) (h : ¬ 0 < now - cv.last_fast) :
    (cv.decay now).fast = cv.fast := by
  simp only [Canvas.decay]
  rw [if_neg h]
  split_ifs <;> rfl

theorem decay_last_fast_pos (cv : Canvas) (now : ℝ) (h : 0 < now - cv.last_fast) :
    (cv.decay now).last_fast = now := by
  simp only [Canvas.decay]
  rw [if_pos h]
  split_ifs <;> rfl

theorem decay_last_fast_nonpos (cv : Canvas) (now : ℝ)
    (h : ¬ 0 < now - cv.last_fast) : (cv.decay now).last_fast = cv.last_fast := by
  simp only [Canvas.decay]
  rw [if_neg h]
  split_ifs <;> rfl

theorem decay_slow_pos (cv : Canvas) (now : ℝ) (h : 0 < now - cv.last_slow) :
    (cv.decay now).slow
      = cv.slow.map (fun v => v * SLOW_DECAY_PER_SEC ^ (now - cv.last_slow)) := by
  simp only [Canvas.decay]
  split_ifs <;> rfl

theorem decay_slow_nonpos (cv : Canvas) (now : ℝ) (h : ¬ 0 < now - cv.last_slow) :
    (cv.decay now).slow = cv.slow := by
  simp only [Canvas.decay]
  split_ifs <;> rfl

theorem decay_last_slow_pos (cv : Canvas) (now : ℝ) (h : 0 < now - cv.last_slow) :
    (cv.decay now).last_slow = now := by
  simp only [Canvas.decay]
  split_ifs <;> rfl

/-- Claim C5: decay commutes with elapsed-time splitting — over exact
reals, decaying after `t1` seconds and then after a further `t2` seconds
produces exactly the fast-layer and slow-layer values of a single decay
after `t1 + t2` seconds, since `rate^t1 * rate^t2 = rate^(t1+t2)`. -/
theorem c5_decay_split (cv : Canvas) (t1 t2 : ℝ) (h1 : 0 ≤ t1) (h2 : 0 ≤ t2)
    (hls : cv.last_slow = cv.last_fast) :
    ((cv.decay (cv.last_fast + t1)).decay (cv.last_fast + t1 + t2)).fast
      = (cv.decay (cv.last_fast + (t1 + t2))).fast
    ∧ ((cv.decay (cv.last_fast + t1)).decay (cv.last_fast + t1 + t2)).slow
      = (cv.decay (cv.last_fast + (t1 + t2))).slow := by
  have hF : (0:ℝ) < FAST_DECAY_PER_SEC := by norm_num [FAST_DECAY_PER_SEC]
  have hS : (0:ℝ) < SLOW_DECAY_PER_SEC := by norm_num [SLOW_DECAY_PER_SEC]
  have e1 : cv.last_fast + t1 - cv.last_fast = t1 := by ring
  have e1s : cv.last_fast + t1 - cv.last_slow = t1 := by rw [hls]; ring
  rcases h1.lt_or_eq with h1p | h1z
  · have d1lf := decay_last_fast_pos cv (cv.last_fast + t1) (by rw [e1]; exact h1p)
    have d1ls := decay_last_slow_pos cv (cv.last_fast + t1) (by rw [e1s]; exact h1p)
    have d1f := decay_fast_pos cv (cv.last_fast + t1) (by rw [e1]; exact h1p)
    have d1s := decay_slow_pos cv (cv.last_fast + t1) (by rw [e1s]; exact h1p)
    rcases h2.lt_or_eq with h2p | h2z
    · -- t1 > 0, t2 > 0
      have c2f : 0 < cv.last_fast + t1 + t2
          - (cv.decay (cv.last_fast + t1)).last_fast := by
        rw [d1lf, show cv.last_fast + t1 + t2 - (cv.last_fast + t1) = t2 from by ring]
        exact h2p
      have c2s : 0 < cv.last_fast + t1 + t2
          - (cv.decay (cv.last_fast + t1)).last_slow := by
        rw [d1ls, show cv.last_fast + t1 + t2 - (cv.last_fast + t1) = t2 from by ring]
        exact h2p
      have d2f := decay_fast_pos (cv.decay (cv.last_fast + t1))
        (cv.last_fast + t1 + t2) c2f
      have d2s := decay_slow_pos (cv.decay (cv.last_fast + t1))
        (cv.last_fast + t1 + t2) c2s
      have dRf := decay_fast_pos cv (cv.last_fast + (t1 + t2))
        (by rw [show cv.last_fast + (t1 + t2) - cv.last_fast = t1 + t2 from by ring]; linarith)
      have dRs := decay_slow_pos cv (cv.last_fast + (t1 + t2))
        (by rw [hls, show cv.last_fast + (t1 + t2) - cv.last_fast = t1 + t2 from by ring]; linarith)
      constructor
      · rw [d2f, d1lf, d1f, dRf, List.map_map, e1,
          show cv.last_fast + t1 + t2 - (cv.last_fast + t1) = t2 from by ring,
          show cv.last_fast + (t1 + t2) - cv.last_fast = t1 + t2 from by ring]
        have hcomp : ((fun v : ℝ => v * FAST_DECAY_PER_SEC ^ t2)
            ∘ (fun v : ℝ => v * FAST_DECAY_PER_SEC ^ t1))
            = fun v : ℝ => v * FAST_DECAY_PER_SEC ^ (t1 + t2) := by
          funext v
          simp only [Function.comp_apply]
          rw [mul_assoc, ← Real.rpow_add hF]
        rw [hcomp]
      · rw [d2s, d1ls, d1s, dRs, List.map_map, e1s,
          show cv.last_fast + t1 + t2 - (cv.last_fast + t1) = t2 from by ring,
          show cv.last_fast + (t1 + t2) - cv.last_slow = t1 + t2 from by rw [hls]; ring]
        have hcomp : ((fun v : ℝ => v * SLOW_DECAY_PER_SEC ^ t2)
            ∘ (fun v : ℝ => v * SLOW_DECAY_PER_SEC ^ t1))
            = fun v : ℝ => v * SLOW_DECAY_PER_SEC ^ (t1 + t2) := by
          funext v
          simp only [Function.comp_apply]
          rw [mul_assoc, ← Real.rpow_add hS]
        rw [hcomp]
    · -- t1 > 0, t2 = 0
      subst h2z
      rw [add_zero, add_zero]
      constructor
      · rw [decay_fast_nonpos (cv.decay (cv.last_fast + t1)) (cv.last_fast + t1)
          (by rw [d1lf, sub_self]; exact lt_irrefl 0)]
      · rw [decay_slow_nonpos (cv.decay (cv.last_fast + t1)) (cv.last_fast + t1)
          (by rw [d1ls, sub_self]; exact lt_irrefl 0)]
  · -- t1 = 0
    subst h1z
    rw [decay_noop cv (cv.last_fast + 0) (by ring) (by rw [hls]; ring),
      add_zero, zero_add]
    exact ⟨rfl, rfl⟩

/-- Witness for `c5_decay_split` on the default canvas with `t1 = 1`,
`t2 = 2`. -/
theorem c5_decay_witness :
    (((mkCanvas 0 0 5).decay ((mkCanvas 0 0 5).last_fast + 1)).decay
        ((mkCanvas 0 0 5).last_fast + 1 + 2)).fast
      = ((mkCanvas 0 0 5).decay ((mkCanvas 0 0 5).last_fast + (1 + 2))).fast
    ∧ (((mkCanvas 0 0 5).decay ((mkCanvas 0 0 5).last_fast + 1)).decay
        ((mkCanvas 0 0 5).last_fast + 1 + 2)).slow
      = ((mkCanvas 0 0 5).decay ((mkCanvas 0 0 5).last_fast + (1 + 2))).slow :=
  c5_decay_split (mkCanvas 0 0 5) 1 2 (by norm_num) (by norm_num) rfl

/-! ## Non-negativity invariant (claim C9) -/

theorem forall_getD {α : Type} (P : α → Prop) (d : α) (hd : P d) :
    ∀ (l : List α) (i : ℕ), (∀ v ∈ l, P v) → P (l.getD i d) := by
  intro l
  induction l with
  | nil => intro i h; simpa using hd
  | cons a t ih =>
    intro i h
    cases i with
    | zero => simpa using h a (by simp)
    | succ n =>
      rw [List.getD_cons_succ]
      exact ih n (fun v hv => h v (by simp [hv]))

theorem nonneg_splat (cv : Canvas) (x y : ℤ) (ink : ℝ) (g : RNG)
    (hc : NonnegCanvas cv) (hink : 0 ≤ ink) :
    NonnegCanvas (cv.splat_subpixel x y ink g).1 := by
  obtain ⟨hf, hs, hh⟩ := hc
  unfold Canvas.splat_subpixel
  split_ifs with h1 h2
  · exact ⟨hf, hs, hh⟩
  case neg =>
    exact ⟨hf, hs, hh⟩
  case pos =>
    dsimp only
    refine ⟨?_, ?_, ?_⟩
    · intro v hv
      rcases List.mem_or_eq_of_mem_set hv with hv' | hv'
      · exact hf v hv'
      · rw [hv']
        exact add_nonneg (forall_getD (fun z => 0 ≤ z) 0 le_rfl cv.fast _ hf) hink
    · intro v hv
      rcases List.mem_or_eq_of_mem_set hv with hv' | hv'
      · exact hs v hv'
      · rw [hv']
        exact add_nonneg (forall_getD (fun z => 0 ≤ z) 0 le_rfl cv.slow _ hs)
          (mul_nonneg hink (by norm_num [SLOW_GAIN]))
    · intro v hv
      rcases List.mem_or_eq_of_mem_set hv with hv' | hv'
      · exact hh v hv'
      · rw [hv']
        exact add_nonneg (forall_getD (fun z : ℤ => 0 ≤ z) 0 le_rfl cv.hit _ hh)
          zero_le_one

theorem nonneg_rayStep (cv : Canvas) (theta r_pix ink : ℝ) (steps s : ℕ)
    (g : RNG) (hc : NonnegCanvas cv) (hink : 0 ≤ ink) :
    NonnegCanvas (cv.rayStep theta r_pix ink steps s g).1 := by
  simp only [Canvas.rayStep]
  split_ifs with h
  · exact nonneg_splat cv _ _ ink _ hc hink
  · exact hc

theorem foldl_preserve {α : Type} (P : Canvas → Prop)
    (F : Canvas × RNG → α → Canvas × RNG)
    (hF : ∀ st a, P st.1 → P (F st a).1) :
    ∀ (l : List α) (st : Canvas × RNG), P st.1 → P (l.foldl F st).1 := by
  intro l
  induction l with
  | nil => intro st h; exact h
  | cons a t ih => intro st h; exact ih (F st a) (hF st a h)

theorem nonneg_deposit_ray (cv : Canvas) (theta r_pix ink : ℝ) (g : RNG)
    (hc : NonnegCanvas cv) (hink : 0 ≤ ink) :
    NonnegCanvas (cv.deposit_ray theta r_pix ink g).1 := by
  unfold Canvas.deposit_ray
  exact foldl_preserve NonnegCanvas _
    (fun st a h => nonneg_rayStep st.1 theta r_pix ink (raySteps r_pix) a st.2 h hink)
    _ (cv, g) hc

theorem inkPer_nonneg (motion_u drssi_u : ℝ) (k : ℤ)
    (hm : 0 ≤ motion_u) (hd : 0 ≤ drssi_u) : 0 ≤ inkPer motion_u drssi_u k := by
  unfold inkPer
  apply div_nonneg
  · have h1 : (0:ℝ) ≤ 0.9 * motion_u := by nlinarith
    have h2 : (0:ℝ) ≤ 0.1 * drssi_u := by nlinarith
    linarith
  · have : (0:ℤ) ≤ max 1 k := le_trans zero_le_one (le_max_left 1 k)
    exact_mod_cast this

theorem nonneg_ingestDeposit (cv : Canvas) (theta re me dr : ℝ) (g : RNG)
    (hc : NonnegCanvas cv) :
    NonnegCanvas (cv.ingestDeposit theta re me dr g).1 := by
  have hink := inkPer_nonneg (motionUnit me) (drssiUnit dr)
    (kOf (motionUnit me) (drssiUnit dr)) (motionUnit_nonneg me) (drssiUnit_nonneg dr)
  unfold Canvas.ingestDeposit
  exact foldl_preserve NonnegCanvas _
    (fun st a h => nonneg_deposit_ray st.1 _ _ _ _ h hink) _ (cv, g) hc

theorem map_mul_rpow_nonneg (l : List ℝ) (C t : ℝ) (hC : 0 ≤ C)
    (h : ∀ v ∈ l, 0 ≤ v) : ∀ v ∈ l.map (fun v => v * C ^ t), 0 ≤ v := by
  intro v hv
  rcases List.mem_map.mp hv with ⟨w, hw, rfl⟩
  exact mul_nonneg (h w hw) (Real.rpow_nonneg hC t)

theorem map_trunc_rpow_nonneg (l : List ℤ) (C t : ℝ) (hC : 0 ≤ C)
    (h : ∀ v ∈ l, 0 ≤ v) :
    ∀ v ∈ l.map (fun z : ℤ => pyTrunc ((z : ℝ) * C ^ t)), 0 ≤ v := by
  intro v hv
  rcases List.mem_map.mp hv with ⟨w, hw, rfl⟩
  exact pyTrunc_nonneg
    (mul_nonneg (by exact_mod_cast h w hw) (Real.rpow_nonneg hC t))

theorem nonneg_decay (cv : Canvas) (now : ℝ) (hc : NonnegCanvas cv) :
    NonnegCanvas (cv.decay now) := by
  obtain ⟨hf, hs, hh⟩ := hc
  have hF : (0:ℝ) ≤ FAST_DECAY_PER_SEC := by norm_num [FAST_DECAY_PER_SEC]
  have hS : (0:ℝ) ≤ SLOW_DECAY_PER_SEC := by norm_num [SLOW_DECAY_PER_SEC]
  simp only [Canvas.decay]
  split_ifs <;>
    exact ⟨by first
        | exact map_mul_rpow_nonneg cv.fast _ _ hF hf
        | exact hf,
      by first
        | exact map_mul_rpow_nonneg cv.slow _ _ hS hs
        | exact hs,
      by first
        | exact map_trunc_rpow_nonneg cv.hit _ _ hF hh
        | exact hh⟩

theorem nonneg_applyOp (cv : Canvas) (op : Op) (hc : NonnegCanvas cv) :
    NonnegCanvas (cv.applyOp op) := by
  cases op with
  | ingest theta re me dr g => exact nonneg_ingestDeposit cv theta re me dr g hc
  | decayAt now => exact nonneg_decay cv now hc

/-- Claim C9: after any sequence of observation depositions and decay
applications starting from a freshly constructed canvas, every fast and
slow entry is a non-negative scalar and every congestion count a
non-negative integer — the ink formula cannot go negative (motion unit
floored at 0, rate unit clamped), and decay multiplies by a positive
factor, truncating the counter toward zero. -/
theorem c9_nonneg_invariant (cols lines : ℕ) (t0 : ℝ) (ops : List Op) :
    NonnegCanvas ((mkCanvas cols lines t0).runOps ops) := by
  have h0 : NonnegCanvas (mkCanvas cols lines t0) := by
    refine ⟨?_, ?_, ?_⟩ <;> intro v hv <;>
      simp only [mkCanvas] at hv <;>
      rw [List.eq_of_mem_replicate hv]
  have hrun : ∀ (l : List Op) (c : Canvas), NonnegCanvas c →
      NonnegCanvas (l.foldl Canvas.applyOp c) := by
    intro l
    induction l with
    | nil => intro c h; exact h
    | cons o t ih => intro c h; exact ih _ (nonneg_applyOp c o h)
  exact hrun ops _ h0

/-! ## Total ink per observation (claim C3) -/

theorem sum_set_getD_add (l : List ℝ) (i : ℕ) (a : ℝ) :
    (l.set i (l.getD i 0 + a)).sum = l.sum + if i < l.length then a else 0 := by
  induction l generalizing i with
  | nil => simp
  | cons x t ih =>
    cases i with
    | zero =>
      simp only [List.getD_cons_zero, List.set_cons_zero, List.sum_cons,
        List.length_cons]
      rw [if_pos (Nat.succ_pos t.length)]
      ring
    | succ n =>
      simp only [List.getD_cons_succ, List.set_cons_succ, List.sum_cons,
        List.length_cons, ih n, Nat.add_lt_add_iff_right]
      split_ifs <;> ring

theorem splat_fastSum_le (cv : Canvas) (x y : ℤ) (ink : ℝ) (g : RNG)
    (hink : 0 ≤ ink) :
    fastSum (cv.splat_subpixel x y ink g).1 ≤ fastSum cv + ink := by
  unfold fastSum Canvas.splat_subpixel
  split_ifs with h1 h2
  · linarith
  case neg => linarith
  case pos =>
    dsimp only
    rw [sum_set_getD_add]
    split_ifs <;> linarith

theorem rayStep_fastSum_le (cv : Canvas) (theta r_pix ink : ℝ) (steps s : ℕ)
    (g : RNG) (hink : 0 ≤ ink) :
    fastSum (cv.rayStep theta r_pix ink steps s g).1 ≤ fastSum cv + ink := by
  simp only [Canvas.rayStep]
  split_ifs with h
  · exact splat_fastSum_le cv _ _ ink _ hink
  · dsimp only [fastSum]; linarith

theorem foldl_fastSum_le {α : Type} (F : Canvas × RNG → α → Canvas × RNG)
    (c : ℝ) (hF : ∀ st a, fastSum (F st a).1 ≤ fastSum st.1 + c) :
    ∀ (l : List α) (st : Canvas × RNG),
      fastSum (l.foldl F st).1 ≤ fastSum st.1 + (l.length : ℝ) * c := by
  intro l
  induction l with
  | nil => intro st; simp
  | cons a t ih =>
    intro st
    have h1 : fastSum ((a :: t).foldl F st).1
        = fastSum (t.foldl F (F st a)).1 := rfl
    rw [h1]
    have h2 := ih (F st a)
    have h3 := hF st a
    have h4 : ((a :: t).length : ℝ) = (t.length : ℝ) + 1 := by
      rw [List.length_cons]; push_cast; ring
    rw [h4]
    nlinarith [h2, h3]

theorem deposit_ray_fastSum_le (cv : Canvas) (theta r_pix ink : ℝ) (g : RNG)
    (hink : 0 ≤ ink) :
    fastSum (cv.deposit_ray theta r_pix ink g).1
      ≤ fastSum cv + (raySteps r_pix : ℝ) * ink := by
  unfold Canvas.deposit_ray
  have h := foldl_fastSum_le
    (fun st s => st.1.rayStep theta r_pix ink (raySteps r_pix) s st.2) ink
    (fun st a => rayStep_fastSum_le st.1 theta r_pix ink (raySteps r_pix) a st.2 hink)
    (List.range (raySteps r_pix)) (cv, g)
  simpa [List.length_range] using h

theorem raySteps_le (r : ℝ) (hr : 0 ≤ r) :
    (raySteps r : ℝ) ≤ max 1 ((RAY_STEPS_PER_M / 8) * (0.8 * r + 1)) := by
  unfold raySteps rayStart
  have h02 : (0:ℝ) ≤ 0.2 * r := by linarith
  rw [pyTrunc_of_nonneg h02]
  have hst_le : (⌊0.2 * r⌋ : ℝ) ≤ 0.2 * r := Int.floor_le _
  have hst_gt : 0.2 * r - 1 < (⌊0.2 * r⌋ : ℝ) := Int.sub_one_lt_floor _
  have hz0 : (0:ℝ) ≤ (r - (⌊0.2 * r⌋ : ℝ)) * (RAY_STEPS_PER_M / 8.0) := by
    apply mul_nonneg (by linarith) (by norm_num [RAY_STEPS_PER_M])
  rw [pyTrunc_of_nonneg hz0]
  have hT1 : (0:ℤ) ≤ max 1 ⌊(r - (⌊0.2 * r⌋ : ℝ)) * (RAY_STEPS_PER_M / 8.0)⌋ :=
    le_trans zero_le_one (le_max_left _ _)
  have hcast : (((max 1 ⌊(r - (⌊0.2 * r⌋ : ℝ)) * (RAY_STEPS_PER_M / 8.0)⌋).toNat : ℕ) : ℝ)
      = ((max 1 ⌊(r - (⌊0.2 * r⌋ : ℝ)) * (RAY_STEPS_PER_M / 8.0)⌋ : ℤ) : ℝ) := by
    exact_mod_cast congrArg Int.cast (Int.toNat_of_nonneg hT1)
  rw [hcast, Int.cast_max]
  push_cast
  apply max_le_max le_rfl
  have hfl : (⌊(r - (⌊0.2 * r⌋ : ℝ)) * (RAY_STEPS_PER_M / 8.0)⌋ : ℝ)
      ≤ (r - (⌊0.2 * r⌋ : ℝ)) * (RAY_STEPS_PER_M / 8.0) := Int.floor_le _
  have hM : RAY_STEPS_PER_M = 9 := by norm_num [RAY_STEPS_PER_M]
  rw [hM] at hfl ⊢
  nlinarith [hst_gt]

theorem uniform_mem (g : RNG) (a b : ℝ) (hab : a ≤ b) :
    a ≤ (g.uniform a b).1 ∧ (g.uniform a b).1 ≤ b := by
  unfold RNG.uniform
  dsimp only
  have hc0 : (0:ℝ) ≤ clamp (g.reals g.nr) 0 1 := le_clamp _ 0 1 zero_le_one
  have hc1 : clamp (g.reals g.nr) 0 1 ≤ 1 := clamp_le _ 0 1 zero_le_one
  constructor <;> nlinarith

/-- Claim C3: the total ink an observation can add to the fast layer is
bounded by `rayStepsBound r_pix * (0.9·motionUnit + 0.1·rateUnit)` — a
quantity built from the units, the fixed `0.9/0.1` weights and the
per-ray step bound, with no dependence on the sample count `k`: the `k`
micro-deposits each carry `(0.9·motionUnit + 0.1·rateUnit)/max(1,k)`
ink per splat, so increasing `k` redistributes but does not inflate the
total. -/
theorem c3_total_ink_bound (cv : Canvas) (theta rssi_ema motion_ema d_rs : ℝ)
    (g : RNG) (hR : 4 ≤ (cv.R : ℝ)) :
    fastSum (cv.ingestDeposit theta rssi_ema motion_ema d_rs g).1
      ≤ fastSum cv
        + rayStepsBound (rssi_to_radius_pix rssi_ema (cv.R : ℝ))
          * (0.9 * motionUnit motion_ema + 0.1 * drssiUnit d_rs) := by
  have hrp : 0 ≤ rssi_to_radius_pix rssi_ema (cv.R : ℝ) := by
    have := (rssi_radius_range rssi_ema (cv.R : ℝ) hR).1; linarith
  have hink := inkPer_nonneg (motionUnit motion_ema) (drssiUnit d_rs)
    (kOf (motionUnit motion_ema) (drssiUnit d_rs))
    (motionUnit_nonneg motion_ema) (drssiUnit_nonneg d_rs)
  have hS1 : (1:ℝ) ≤ rayStepsBound (rssi_to_radius_pix rssi_ema (cv.R : ℝ)) :=
    le_max_left _ _
  have hw0 : (0:ℝ) ≤ 0.9 * motionUnit motion_ema + 0.1 * drssiUnit d_rs := by
    have h1 := motionUnit_nonneg motion_ema
    have h2 := drssiUnit_nonneg d_rs
    nlinarith
  have hF : ∀ (st : Canvas × RNG) (a : ℕ),
      fastSum (st.1.deposit_ray
        (theta + (st.2.uniform (-JITTER_ARC_DEG) JITTER_ARC_DEG).1 * (Real.pi / 180))
        (rssi_to_radius_pix rssi_ema (cv.R : ℝ)
          * (1 + ((st.2.uniform (-JITTER_ARC_DEG) JITTER_ARC_DEG).2.uniform
              (-JITTER_R_FRAC) JITTER_R_FRAC).1))
        (inkPer (motionUnit motion_ema) (drssiUnit d_rs)
          (kOf (motionUnit motion_ema) (drssiUnit d_rs)))
        ((st.2.uniform (-JITTER_ARC_DEG) JITTER_ARC_DEG).2.uniform
          (-JITTER_R_FRAC) JITTER_R_FRAC).2).1
      ≤ fastSum st.1
        + rayStepsBound (rssi_to_radius_pix rssi_ema (cv.R : ℝ))
          * inkPer (motionUnit motion_ema) (drssiUnit d_rs)
            (kOf (motionUnit motion_ema) (drssiUnit d_rs)) := by
    intro st a
    have hu := uniform_mem ((st.2.uniform (-JITTER_ARC_DEG) JITTER_ARC_DEG).2)
      (-JITTER_R_FRAC) JITTER_R_FRAC (by norm_num [JITTER_R_FRAC])
    have hJ1 : JITTER_R_FRAC ≤ 1 := by norm_num [JITTER_R_FRAC]
    have hrr0 : 0 ≤ rssi_to_radius_pix rssi_ema (cv.R : ℝ)
        * (1 + ((st.2.uniform (-JITTER_ARC_DEG) JITTER_ARC_DEG).2.uniform
            (-JITTER_R_FRAC) JITTER_R_FRAC).1) := by
      apply mul_nonneg hrp
      linarith [hu.1]
    have hrrB : rssi_to_radius_pix rssi_ema (cv.R : ℝ)
        * (1 + ((st.2.uniform (-JITTER_ARC_DEG) JITTER_ARC_DEG).2.uniform
            (-JITTER_R_FRAC) JITTER_R_FRAC).1)
        ≤ (1 + JITTER_R_FRAC) * rssi_to_radius_pix rssi_ema (cv.R : ℝ) := by
      nlinarith [hu.2, hrp]
    have hsteps : ((raySteps (rssi_to_radius_pix rssi_ema (cv.R : ℝ)
        * (1 + ((st.2.uniform (-JITTER_ARC_DEG) JITTER_ARC_DEG).2.uniform
            (-JITTER_R_FRAC) JITTER_R_FRAC).1)) : ℕ) : ℝ)
        ≤ rayStepsBound (rssi_to_radius_pix rssi_ema (cv.R : ℝ)) := by
      apply le_trans (raySteps_le _ hrr0)
      unfold rayStepsBound
      apply max_le_max le_rfl
      have h98 : (0:ℝ) ≤ RAY_STEPS_PER_M / 8 := by norm_num [RAY_STEPS_PER_M]
      exact mul_le_mul_of_nonneg_left (by linarith [hrrB]) h98
    calc fastSum (st.1.deposit_ray _ _ _ _).1
        ≤ fastSum st.1 + ((raySteps (rssi_to_radius_pix rssi_ema (cv.R : ℝ)
            * (1 + ((st.2.uniform (-JITTER_ARC_DEG) JITTER_ARC_DEG).2.uniform
                (-JITTER_R_FRAC) JITTER_R_FRAC).1)) : ℕ) : ℝ)
            * inkPer (motionUnit motion_ema) (drssiUnit d_rs)
              (kOf (motionUnit motion_ema) (drssiUnit d_rs)) :=
          deposit_ray_fastSum_le st.1 _ _ _ _ hink
      _ ≤ fastSum st.1
            + rayStepsBound (rssi_to_radius_pix rssi_ema (cv.R : ℝ))
              * inkPer (motionUnit motion_ema) (drssiUnit d_rs)
                (kOf (motionUnit motion_ema) (drssiUnit d_rs)) := by
          have := mul_le_mul_of_nonneg_right hsteps hink
          linarith
  simp only [Canvas.ingestDeposit]
  apply le_trans (foldl_fastSum_le _
    (rayStepsBound (rssi_to_radius_pix rssi_ema (cv.R : ℝ))
      * inkPer (motionUnit motion_ema) (drssiUnit d_rs)
        (kOf (motionUnit motion_ema) (drssiUnit d_rs))) hF
    (List.range (kOf (motionUnit motion_ema) (drssiUnit d_rs)).toNat) (cv, g))
  rw [List.length_range]
  have hM0 : (0:ℝ) < ((max 1 (kOf (motionUnit motion_ema) (drssiUnit d_rs)) : ℤ) : ℝ) := by
    have : (0:ℤ) < max 1 (kOf (motionUnit motion_ema) (drssiUnit d_rs)) := by
      have := le_max_left (1:ℤ) (kOf (motionUnit motion_ema) (drssiUnit d_rs)); omega
    exact_mod_cast this
  have hkM : (((kOf (motionUnit motion_ema) (drssiUnit d_rs)).toNat : ℕ) : ℝ)
      ≤ ((max 1 (kOf (motionUnit motion_ema) (drssiUnit d_rs)) : ℤ) : ℝ) := by
    have : ((kOf (motionUnit motion_ema) (drssiUnit d_rs)).toNat : ℤ)
        ≤ max 1 (kOf (motionUnit motion_ema) (drssiUnit d_rs)) := by omega
    exact_mod_cast this
  unfold inkPer
  have hSB : (0:ℝ) ≤ rayStepsBound (rssi_to_radius_pix rssi_ema (cv.R : ℝ)) := by
    linarith [hS1]
  have hfst : fastSum ((cv, g) : Canvas × RNG).1 = fastSum cv := rfl
  have key : ((kOf (motionUnit motion_ema) (drssiUnit d_rs)).toNat : ℝ)
      * (rayStepsBound (rssi_to_radius_pix rssi_ema (cv.R : ℝ))
        * ((0.9 * motionUnit motion_ema + 0.1 * drssiUnit d_rs)
          / ((max 1 (kOf (motionUnit motion_ema) (drssiUnit d_rs)) : ℤ) : ℝ)))
      ≤ rayStepsBound (rssi_to_radius_pix rssi_ema (cv.R : ℝ))
        * (0.9 * motionUnit motion_ema + 0.1 * drssiUnit d_rs) := by
    have hdivle : ((kOf (motionUnit motion_ema) (drssiUnit d_rs)).toNat : ℝ)
        / ((max 1 (kOf (motionUnit motion_ema) (drssiUnit d_rs)) : ℤ) : ℝ) ≤ 1 := by
      rw [div_le_one hM0]
      exact hkM
    have hrw : ((kOf (motionUnit motion_ema) (drssiUnit d_rs)).toNat : ℝ)
        * (rayStepsBound (rssi_to_radius_pix rssi_ema (cv.R : ℝ))
          * ((0.9 * motionUnit motion_ema + 0.1 * drssiUnit d_rs)
            / ((max 1 (kOf (motionUnit motion_ema) (drssiUnit d_rs)) : ℤ) : ℝ)))
        = (rayStepsBound (rssi_to_radius_pix rssi_ema (cv.R : ℝ))
            * (0.9 * motionUnit motion_ema + 0.1 * drssiUnit d_rs))
          * (((kOf (motionUnit motion_ema) (drssiUnit d_rs)).toNat : ℝ)
            / ((max 1 (kOf (motionUnit motion_ema) (drssiUnit d_rs)) : ℤ) : ℝ)) := by
      ring
    rw [hrw]
    have hnn : (0:ℝ) ≤ rayStepsBound (rssi_to_radius_pix rssi_ema (cv.R : ℝ))
        * (0.9 * motionUnit motion_ema + 0.1 * drssiUnit d_rs) :=
      mul_nonneg hSB hw0
    nlinarith [hdivle, hnn]
  rw [hfst]
  linarith [key]

/-- Witness for `c3_total_ink_bound` on the default canvas
(`R = 68 ≥ 4`). -/
theorem c3_total_ink_witness :
    fastSum ((mkCanvas 0 0 0).ingestDeposit 0 (-60) 1 0
        ⟨fun _ => 0, fun _ => 0, 0, 0⟩).1
      ≤ fastSum (mkCanvas 0 0 0)
        + rayStepsBound (rssi_to_radius_pix (-60) ((mkCanvas 0 0 0).R : ℝ))
          * (0.9 * motionUnit 1 + 0.1 * drssiUnit 0) :=
  c3_total_ink_bound (mkCanvas 0 0 0) 0 (-60) 1 0
    ⟨fun _ => 0, fun _ => 0, 0, 0⟩ (by norm_num [mkCanvas])

end MatrixPy
